import Mathlib

/-!
GitNifty: a promise-based Git command facade for Node.js, shallowly embedded.

The source is the Git class (src/index.ts and the larger class source file):
each facade method normalizes its typed arguments into one invocation string
and delegates to a single executor, runCommand, which wraps
child_process.exec.  Here:

* Subprocess execution is modelled by an environment (Env) mapping a working
  directory and a command string to an outcome: an error flag (non-zero exit
  or spawn failure), stdout and stderr.  The exec callback becomes an Except
  value: reject is Except.error, resolve is Except.ok.
* The JavaScript string operations used by the source (trim, split at
  newlines, includes, replace with a string pattern — first occurrence only)
  are embedded as executable functions on character lists, restricted to the
  ASCII whitespace characters that matter here.
* TS union parameter types (string | string[], Flag | Flag[]) become small
  inductives; JS truthiness of a string value is the test against "".
-/

namespace GitNifty

/-- One subprocess outcome: whether exec reported an error (non-zero exit or
spawn failure), plus the stdout and stderr texts. -/
structure ExecOutcome where
  err : Bool
  stdout : String
  stderr : String

/-- The subprocess world: what exec answers for a working directory and a
command string. -/
abbrev Env : Type := String → String → ExecOutcome

/-- The Git facade instance; its only state is the private working directory
set by the constructor. -/
structure Git where
  cwd : String

/-- Whitespace test covering the ASCII whitespace characters used here. -/
def isWs (c : Char) : Bool := c = ' ' || c = '\t' || c = '\n' || c = '\r'

/-- JS String.prototype.trim: strip leading and trailing whitespace. -/
def jsTrim (s : String) : String :=
  String.mk (((s.data.dropWhile isWs).reverse.dropWhile isWs).reverse)

/-- Does the pattern occur at the head of the list? -/
def leadsWith : List Char → List Char → Bool
  | [], _ => true
  | _ :: _, [] => false
  | a :: as, b :: bs => a == b && leadsWith as bs

/-- Does the pattern occur anywhere in the list (JS includes)? -/
def hasSub (p : List Char) : List Char → Bool
  | [] => p.isEmpty
  | c :: rest => leadsWith p (c :: rest) || hasSub p rest

/-- JS s.includes(pat). -/
def strIncludes (s pat : String) : Bool := hasSub pat.data s.data

/-- JS String.prototype.replace with a plain string pattern: only the first
occurrence is replaced. -/
def replaceFirstL (p r : List Char) : List Char → List Char
  | [] => if p.isEmpty then r else []
  | c :: rest =>
    if leadsWith p (c :: rest) then r ++ (c :: rest).drop p.length
    else c :: replaceFirstL p r rest

/-- JS s.replace(pat, rep) for a string pattern (first occurrence only). -/
def strReplaceFirst (s pat rep : String) : String :=
  String.mk (replaceFirstL pat.data rep.data s.data)

/-- JS s.split("\n") on character lists: split at every newline, keeping
empty pieces. -/
def splitNl : List Char → List (List Char)
  | [] => [[]]
  | c :: rest =>
    if c = '\n' then [] :: splitNl rest
    else
      match splitNl rest with
      | h :: t => (c :: h) :: t
      | [] => [[c]]

/-- JS s.split("\n"). -/
def splitLines (s : String) : List String := (splitNl s.data).map String.mk

/-- Source: private runCommand(cmd).  Run the command via exec in the
instance's working directory; when exec reports an error, reject with a
message embedding the command and stderr; otherwise resolve with trimmed
stdout. -/
def runCommand (env : Env) (g : Git) (cmd : String) : Except String String :=
  let r := env g.cwd cmd
  if r.err then
    Except.error ("Error executing command: " ++ cmd ++ "\n" ++ r.stderr)
  else
    Except.ok (jsTrim r.stdout)

/-- Source: private tryCommand(cmd).  Collapse a fallible command into a
Boolean: true when it resolves, false when it rejects. -/
def tryCommand (cmd : Except String String) : Bool :=
  match cmd with
  | Except.ok _ => true
  | Except.error _ => false

/-- A TS parameter of union type string | string[]. -/
inductive StrOrList where
  | str : String → StrOrList
  | list : List String → StrOrList

/-- A TS optional parameter of union type Flag | Flag[]: absent (undefined),
a single flag, or a list of flags.  Flags are modelled as the literal strings
of the closed per-operation flag types. -/
inductive FlagsArg where
  | undef : FlagsArg
  | one : String → FlagsArg
  | many : List String → FlagsArg

/-- The closed CommitFlag type, as literal strings. -/
def commitFlags : List String :=
  ["--amend", "--no-edit", "--allow-empty", "--no-verify", "--signoff",
   "--verbose"]

/-- The closed PushFlag type, as literal strings. -/
def pushFlags : List String :=
  ["--force", "--force-with-lease", "--tags", "--follow-tags",
   "--set-upstream", "--dry-run", "--delete", "--all"]

/-- The closed TagFlag type, as literal strings. -/
def tagFlags : List String := ["--annotate", "--delete", "--force", "--list"]

/-- The closed MergeFlag type, as literal strings. -/
def mergeFlags : List String :=
  ["--no-ff", "--ff-only", "--squash", "--no-commit", "--commit", "--edit",
   "--no-edit", "--strategy=ours", "--strategy=recursive"]

/-- The closed CheckoutFlag type, as literal strings. -/
def checkoutFlags : List String :=
  ["-b", "-B", "--detach", "--force", "--orphan"]

/-- The closed BranchFlag type, as literal strings. -/
def branchFlags : List String :=
  ["-d", "-D", "-m", "-M", "--list", "--show-current"]

/-- Array.isArray normalization for string | string[] values:
a list is joined with single spaces, a plain string passes through. -/
def normalizeStrOrList : StrOrList → String
  | StrOrList.str s => s
  | StrOrList.list l => String.intercalate " " l

/-- JS Array.prototype.filter(Boolean) on strings: drop empty strings (the
falsy ones). -/
def jsFilterBool (l : List String) : List String := l.filter (fun s => s ≠ "")

/-- Source: setUserName builds the template literal
git config --global user.name "<name>" with a trailing space; the value is
inserted verbatim. -/
def setUserNameCmd (name : String) : String :=
  "git config --global user.name \"" ++ name ++ "\" "

/-- Source: setUserEmail builds git config --global user.email "<email>"
(no trailing space); the value is inserted verbatim. -/
def setUserEmailCmd (email : String) : String :=
  "git config --global user.email \"" ++ email ++ "\""

/-- Source: add(path = ".") builds the template literal
git add <normalizedPath> followed by a trailing space. -/
def addCmd (path : StrOrList) : String :=
  "git add " ++ normalizeStrOrList path ++ " "

/-- The source's default for add's omitted path parameter. -/
def addCmdDefault : String := addCmd (StrOrList.str ".")

/-- Source: reset(hashValue, flag?) joins the truthy parts of
["git reset", flag, hashValue] with spaces. -/
def resetCmd (hashValue : String) (flag : Option String) : String :=
  String.intercalate " " (jsFilterBool ["git reset", flag.getD "", hashValue])

/-- Source: restore(target = ".", flag?) builds
git restore<flagPart> <normalizedTarget>, where flagPart is a leading space
plus the flag when the flag is truthy. -/
def restoreCmd (target : StrOrList) (flag : Option String) : String :=
  let flagPart :=
    match flag with
    | some f => if f = "" then "" else " " ++ f
    | none => ""
  "git restore" ++ flagPart ++ " " ++ normalizeStrOrList target

/-- One step of the commit-message escaping m.replace of every double quote
by backslash-quote: character list version. -/
def escQ : List Char → List Char
  | [] => []
  | c :: rest => if c = '"' then '\\' :: '"' :: escQ rest else c :: escQ rest

/-- Source: message.replace of every double quote by a backslash-escaped
double quote (global regex replace). -/
def escapeQuotes (s : String) : String := String.mk (escQ s.data)

/-- Source: commit's flagsPart — empty when flags is falsy, otherwise a
leading space plus the space-joined flags (array case) or the single flag. -/
def commitFlagsPart : FlagsArg → String
  | FlagsArg.undef => ""
  | FlagsArg.one f => if f = "" then "" else " " ++ f
  | FlagsArg.many l => " " ++ String.intercalate " " l

/-- Source: commit(message, flags?) builds
git commit -m "<escaped message>"<flagsPart>. -/
def commitCmd (message : String) (flags : FlagsArg) : String :=
  "git commit -m \"" ++ escapeQuotes message ++ "\"" ++ commitFlagsPart flags

/-- Source: the flagStr shared by tag, merge and checkout — empty when flags
is falsy, otherwise the space-joined flags (array case) or the single flag,
followed by a trailing space. -/
def flagStrOf : FlagsArg → String
  | FlagsArg.undef => ""
  | FlagsArg.one f => if f = "" then "" else f ++ " "
  | FlagsArg.many l => String.intercalate " " l ++ " "

/-- Source: tag(value, flags?) builds git tag <flagStr><value>. -/
def tagCmd (value : String) (flags : FlagsArg) : String :=
  "git tag " ++ flagStrOf flags ++ value

/-- Source: merge(branchName, flags?) builds git merge <flagStr><branchName>. -/
def mergeCmd (branchName : String) (flags : FlagsArg) : String :=
  "git merge " ++ flagStrOf flags ++ branchName

/-- Source: checkout(target, flags?) builds git checkout <flagStr><target>. -/
def checkoutCmd (target : String) (flags : FlagsArg) : String :=
  "git checkout " ++ flagStrOf flags ++ target

/-- Source: clone(url, dir = "") builds git clone <url> <dir>. -/
def cloneCmd (url : String) (dir : String) : String :=
  "git clone " ++ url ++ " " ++ dir

/-- Source: push's positional resolution into the canonical
(finalRemote, finalBranch, finalFlags) record.  If the first argument is an
array it is the flag set and the remote stays at the initial "origin" with no
branch; otherwise the first argument is the remote, and if the second is an
array it is the flag set with no branch, else the second is the branch and
the third supplies the flags ([flags].filter(Boolean) in the single-flag
case). -/
def pushResolve (remote : StrOrList) (branch : StrOrList) (flags : FlagsArg) :
    String × String × List String :=
  match remote with
  | StrOrList.list l => ("origin", "", l)
  | StrOrList.str r =>
    match branch with
    | StrOrList.list l => (r, "", l)
    | StrOrList.str b =>
      let ff : List String :=
        match flags with
        | FlagsArg.many l => l
        | FlagsArg.one f => if f = "" then [] else [f]
        | FlagsArg.undef => []
      (r, b, ff)

/-- Source: push builds git push <flagStr><branchRef>, where flagStr is the
space-joined final flags with a trailing space when non-empty, and branchRef
is the remote followed by the branch (space-separated) when the branch is
non-empty, else just the remote. -/
def pushCmd (remote : StrOrList) (branch : StrOrList) (flags : FlagsArg) :
    String :=
  let res := pushResolve remote branch flags
  let flagStr :=
    if res.2.2.length ≠ 0 then String.intercalate " " res.2.2 ++ " " else ""
  let branchRef := if res.2.1 ≠ "" then res.1 ++ " " ++ res.2.1 else res.1
  "git push " ++ flagStr ++ branchRef

/-- The source's defaults for push's omitted parameters:
remote = "origin". -/
def pushRemoteDefault : StrOrList := StrOrList.str "origin"

/-- The source's default for push's branch parameter: the empty string. -/
def pushBranchDefault : StrOrList := StrOrList.str ""

/-- The source's default for push's flags parameter: the empty array. -/
def pushFlagsDefault : FlagsArg := FlagsArg.many []

/-- Source: branch(name?, flags = []) normalizes flags to an array (a falsy
single flag becomes []), then joins the truthy parts of
["git branch", ...flagArr, name] with spaces. -/
def branchCmd (name : Option String) (flags : FlagsArg) : String :=
  let flagArr : List String :=
    match flags with
    | FlagsArg.many l => l
    | FlagsArg.one f => if f = "" then [] else [f]
    | FlagsArg.undef => []
  String.intercalate " "
    (jsFilterBool ("git branch" :: (flagArr ++ [name.getD ""])))

/-- Source: getDefaultBranchName's processing of the listing text — split at
newlines, find the first line containing "origin/HEAD", and when a (truthy)
line is found replace the first occurrence of "origin/HEAD -> origin/" by the
empty string and trim; otherwise return "main". -/
def getDefaultBranchNameOf (branches : String) : String :=
  match (splitLines branches).find? (fun b => strIncludes b "origin/HEAD") with
  | some defaultBranch =>
    if defaultBranch = "" then "main"
    else jsTrim (strReplaceFirst defaultBranch "origin/HEAD -> origin/" "")
  | none => "main"

/-- Source: getUserName runs git config user.name. -/
def getUserName (env : Env) (g : Git) : Except String String :=
  runCommand env g "git config user.name"

/-- Source: setUserName runs the built config invocation. -/
def setUserName (env : Env) (g : Git) (name : String) : Except String String :=
  runCommand env g (setUserNameCmd name)

/-- Source: getUserEmail runs git config user.email. -/
def getUserEmail (env : Env) (g : Git) : Except String String :=
  runCommand env g "git config user.email"

/-- Source: setUserEmail runs the built config invocation. -/
def setUserEmail (env : Env) (g : Git) (email : String) :
    Except String String :=
  runCommand env g (setUserEmailCmd email)

/-- Source: hasNoUnstagedChanges wraps git diff --quiet in tryCommand. -/
def hasNoUnstagedChanges (env : Env) (g : Git) : Bool :=
  tryCommand (runCommand env g "git diff --quiet")

/-- Source: hasNoStagedChanges wraps git diff --cached --quiet in
tryCommand. -/
def hasNoStagedChanges (env : Env) (g : Git) : Bool :=
  tryCommand (runCommand env g "git diff --cached --quiet")

/-- Source: isWorkingDirClean awaits both probes in order and returns their
conjunction. -/
def isWorkingDirClean (env : Env) (g : Git) : Bool :=
  hasNoUnstagedChanges env g && hasNoStagedChanges env g

/-- Source: hasUpstreamBranch wraps the upstream rev-parse query in
tryCommand. -/
def hasUpstreamBranch (env : Env) (g : Git) : Bool :=
  tryCommand
    (runCommand env g "git rev-parse --abbrev-ref --symbolic-full-name @\x7bu\x7d")

/-- Source: getCurrentBranchName runs git rev-parse --abbrev-ref HEAD. -/
def getCurrentBranchName (env : Env) (g : Git) : Except String String :=
  runCommand env g "git rev-parse --abbrev-ref HEAD"

/-- Source: getDefaultBranchName awaits git branch -r and processes its text;
a rejection of the listing command propagates through the await. -/
def getDefaultBranchName (env : Env) (g : Git) : Except String String :=
  (runCommand env g "git branch -r").map getDefaultBranchNameOf

/-- Source: add runs the built invocation and resolves with its stdout. -/
def add (env : Env) (g : Git) (path : StrOrList) : Except String String :=
  runCommand env g (addCmd path)

/-- Source: reset runs the built invocation. -/
def reset (env : Env) (g : Git) (hashValue : String) (flag : Option String) :
    Except String String :=
  runCommand env g (resetCmd hashValue flag)

/-- Source: restore runs the built invocation. -/
def restore (env : Env) (g : Git) (target : StrOrList) (flag : Option String) :
    Except String String :=
  runCommand env g (restoreCmd target flag)

/-- Source: commit awaits the built invocation and returns this. -/
def commit (env : Env) (g : Git) (message : String) (flags : FlagsArg) :
    Except String Git :=
  (runCommand env g (commitCmd message flags)).map (fun _ => g)

/-- Source: init awaits git init and returns this. -/
def init (env : Env) (g : Git) : Except String Git :=
  (runCommand env g "git init").map (fun _ => g)

/-- Source: clone awaits the built invocation and returns this. -/
def clone (env : Env) (g : Git) (url : String) (dir : String) :
    Except String Git :=
  (runCommand env g (cloneCmd url dir)).map (fun _ => g)

/-- Source: push awaits the built invocation and returns this. -/
def push (env : Env) (g : Git) (remote : StrOrList) (branch : StrOrList)
    (flags : FlagsArg) : Except String Git :=
  (runCommand env g (pushCmd remote branch flags)).map (fun _ => g)

/-- Source: tag runs the built invocation. -/
def tag (env : Env) (g : Git) (value : String) (flags : FlagsArg) :
    Except String String :=
  runCommand env g (tagCmd value flags)

/-- Source: merge runs the built invocation. -/
def merge (env : Env) (g : Git) (branchName : String) (flags : FlagsArg) :
    Except String String :=
  runCommand env g (mergeCmd branchName flags)

/-- Source: checkout awaits the built invocation and returns this. -/
def checkout (env : Env) (g : Git) (target : String) (flags : FlagsArg) :
    Except String Git :=
  (runCommand env g (checkoutCmd target flags)).map (fun _ => g)

/-- Source: branch runs the built invocation. -/
def branch (env : Env) (g : Git) (name : Option String) (flags : FlagsArg) :
    Except String String :=
  runCommand env g (branchCmd name flags)

/-- Specification-side description of the commit-message escaping: each
character of the message maps to itself, except a double quote, which maps to
the two-character sequence backslash, double quote. -/
def escCharSpec (c : Char) : List Char :=
  if c = '"' then ['\\', '"'] else [c]

/-- Specification-side description of the escaped commit message: the
character-wise expansion of the message, concatenated. -/
def specEscapedMessage (m : String) : String :=
  String.mk ((m.data.map escCharSpec).flatten)

/-- Specification-side reading of the default-branch claim, taken literally:
remove the pattern only when it is a leading prefix of the line. -/
def claimedPrefixStrip (s pat : String) : String :=
  if leadsWith pat.data s.data then String.mk (s.data.drop pat.data.length)
  else s

/-- The default-branch processing exactly as the claim words it: the first
line containing "origin/HEAD", with the prefix "origin/HEAD -> origin/"
removed and surrounding whitespace trimmed; "main" when no line matches. -/
def claimedDefaultBranchOf (branches : String) : String :=
  match (splitLines branches).find? (fun b => strIncludes b "origin/HEAD") with
  | some b => jsTrim (claimedPrefixStrip b "origin/HEAD -> origin/")
  | none => "main"

/-- Index of the first occurrence of the pattern in the list, if any. -/
def firstOccIdx (p : List Char) : List Char → Option Nat
  | [] => if p.isEmpty then some 0 else none
  | c :: rest =>
    if leadsWith p (c :: rest) then some 0
    else (firstOccIdx p rest).map (fun i => i + 1)

/-- Removing the first occurrence of a pattern from a string, described by
splicing the text around the occurrence site (independent description used to
state the amended default-branch claim). -/
def removeFirstOcc (s pat : String) : String :=
  match firstOccIdx pat.data s.data with
  | some i => String.mk (s.data.take i ++ s.data.drop (i + pat.data.length))
  | none => s

/-- The amended default-branch claim: the first line containing
"origin/HEAD", with the first occurrence of "origin/HEAD -> origin/" removed
wherever it occurs in the line (not only as a leading prefix) and surrounding
whitespace trimmed; "main" when no line matches. -/
def amendedDefaultBranchOf (branches : String) : String :=
  match (splitLines branches).find? (fun b => strIncludes b "origin/HEAD") with
  | some b => jsTrim (removeFirstOcc b "origin/HEAD -> origin/")
  | none => "main"

/-- A subprocess world in which every command succeeds with a padded stdout. -/
def envOk : Env := fun _ _ => { err := false, stdout := "  out  ", stderr := "" }

/-- A subprocess world in which every command fails with a stderr text. -/
def envFail : Env :=
  fun _ _ => { err := true, stdout := "", stderr := "fatal: boom" }

/-- A subprocess world in which only git diff --quiet succeeds: the unstaged
probe resolves while the staged probe rejects. -/
def envFirstOnly : Env := fun _ cmd =>
  if cmd = "git diff --quiet" then { err := false, stdout := "", stderr := "" }
  else { err := true, stdout := "", stderr := "dirty" }

/-- A remote-branch listing in which the symbolic-HEAD line is not the first
line, so it keeps its two-space indentation after the whole output is
trimmed. -/
def listingCE : String := "origin/ABC\n  origin/HEAD -> origin/dev"

/-- A subprocess world whose git branch -r output is listingCE. -/
def envListing : Env :=
  fun _ _ => { err := false, stdout := listingCE, stderr := "" }

theorem data_append (a b : String) : (a ++ b).data = a.data ++ b.data := by
  cases a
  cases b
  rfl

theorem leadsWith_append (p t : List Char) : leadsWith p (p ++ t) = true := by
  induction p with
  | nil => rfl
  | cons c cs ih => simp [leadsWith, ih]

theorem hasSub_nil_pat (l : List Char) : hasSub [] l = true := by
  cases l with
  | nil => rfl
  | cons c rest => simp [hasSub, leadsWith]

theorem hasSub_here (p t : List Char) : hasSub p (p ++ t) = true := by
  cases p with
  | nil => simpa using hasSub_nil_pat t
  | cons c cs => simp [hasSub, leadsWith, leadsWith_append]

theorem hasSub_of_parts (q a t : List Char) :
    hasSub q (a ++ (q ++ t)) = true := by
  induction a with
  | nil => simpa using hasSub_here q t
  | cons x xs ih => simp [hasSub, ih]

theorem hasSub_tail (q a : List Char) : hasSub q (a ++ q) = true := by
  have h := hasSub_of_parts q a []
  simpa using h

theorem escQ_eq_spec (l : List Char) : escQ l = (l.map escCharSpec).flatten := by
  induction l with
  | nil => rfl
  | cons c rest ih =>
    by_cases h : c = '"' <;> simp [escQ, escCharSpec, h, ih]

theorem replaceFirstL_of_none (p r : List Char) :
    ∀ l, firstOccIdx p l = none → replaceFirstL p r l = l := by
  intro l
  induction l with
  | nil =>
    intro h
    simp only [firstOccIdx] at h
    by_cases hp : p.isEmpty
    · simp [hp] at h
    · simp [replaceFirstL, hp]
  | cons c rest ih =>
    intro h
    simp only [firstOccIdx] at h
    by_cases hl : leadsWith p (c :: rest) = true
    · simp [hl] at h
    · simp only [hl, Bool.false_eq_true, if_false] at h
      cases hrec : firstOccIdx p rest with
      | none => simp [replaceFirstL, hl, ih hrec]
      | some j =>
        rw [hrec] at h
        simp at h

theorem replaceFirstL_of_some (p r : List Char) :
    ∀ l i, firstOccIdx p l = some i →
      replaceFirstL p r l = l.take i ++ r ++ l.drop (i + p.length) := by
  intro l
  induction l with
  | nil =>
    intro i h
    simp only [firstOccIdx] at h
    by_cases hp : p.isEmpty
    · simp only [hp, if_true, Option.some.injEq] at h
      subst h
      simp [replaceFirstL, hp]
    · simp [hp] at h
  | cons c rest ih =>
    intro i h
    simp only [firstOccIdx] at h
    by_cases hl : leadsWith p (c :: rest) = true
    · simp only [hl, if_true, Option.some.injEq] at h
      subst h
      simp [replaceFirstL, hl]
    · simp only [hl, Bool.false_eq_true, if_false] at h
      cases hrec : firstOccIdx p rest with
      | none =>
        rw [hrec] at h
        simp at h
      | some j =>
        rw [hrec] at h
        have h' : j + 1 = i := by simpa using h
        subst h'
        simp only [replaceFirstL, hl, Bool.false_eq_true, if_false, ih j hrec]
        simp [List.take_succ_cons, List.drop_succ_cons, Nat.succ_add,
          Nat.add_right_comm]

theorem strReplaceFirst_empty_eq_remove (s pat : String) :
    strReplaceFirst s pat "" = removeFirstOcc s pat := by
  unfold strReplaceFirst removeFirstOcc
  cases h : firstOccIdx pat.data s.data with
  | none =>
    rw [replaceFirstL_of_none _ _ _ h]
  | some i =>
    rw [replaceFirstL_of_some _ _ _ _ h]
    simp

theorem strIncludes_empty_marker : strIncludes "" "origin/HEAD" = false := by
  decide

theorem getDefaultBranchNameOf_eq_amended (branches : String) :
    getDefaultBranchNameOf branches = amendedDefaultBranchOf branches := by
  unfold getDefaultBranchNameOf amendedDefaultBranchOf
  cases h : (splitLines branches).find? (fun b => strIncludes b "origin/HEAD") with
  | none => rfl
  | some b =>
    have hb : strIncludes b "origin/HEAD" = true := by
      have := List.find?_some h
      simpa using this
    have hbne : b ≠ "" := by
      intro he
      rw [he] at hb
      exact absurd hb (by decide)
    simp [hbne, strReplaceFirst_empty_eq_remove]

theorem ne_empty_of_mem {l : List String} (hno : ("" ∈ l) → False)
    {f : String} (hf : f ∈ l) : f ≠ "" := by
  intro he
  exact hno (he ▸ hf)

theorem intercalate_singleton (sep f : String) :
    String.intercalate sep [f] = f := rfl

/-- Claim C1: push resolves its overloaded positionals as follows — a flag
list in first position is the complete flag set with remote "origin" and no
branch; otherwise the first argument is the remote, a flag list in second
position is the flag set with no branch, and otherwise the second argument is
the branch with the third supplying flags; the invocation places the
space-joined flags (trailing space when non-empty) before the remote and the
branch, when present, after the remote; in particular the three quoted
example invocations are produced. -/
theorem push_overload_resolution :
    (∀ (fl : List String) (b : StrOrList) (f : FlagsArg),
      pushCmd (StrOrList.list fl) b f =
        "git push " ++
          (if fl.length ≠ 0 then String.intercalate " " fl ++ " " else "") ++
          "origin")
    ∧ (∀ (r : String) (fl : List String) (f : FlagsArg),
      pushCmd (StrOrList.str r) (StrOrList.list fl) f =
        "git push " ++
          (if fl.length ≠ 0 then String.intercalate " " fl ++ " " else "") ++
          r)
    ∧ (∀ (r b : String) (fl : List String),
      pushCmd (StrOrList.str r) (StrOrList.str b) (FlagsArg.many fl) =
        "git push " ++
          (if fl.length ≠ 0 then String.intercalate " " fl ++ " " else "") ++
          (if b ≠ "" then r ++ " " ++ b else r))
    ∧ pushCmd pushRemoteDefault pushBranchDefault pushFlagsDefault =
        "git push origin"
    ∧ pushCmd (StrOrList.list ["--force"]) pushBranchDefault
        pushFlagsDefault = "git push --force origin"
    ∧ pushCmd (StrOrList.str "origin") (StrOrList.str "dev")
        (FlagsArg.many ["--tags"]) = "git push --tags origin dev" := by
  refine ⟨?_, ?_, ?_, by decide, by decide, by decide⟩
  · intro fl b f
    simp [pushCmd, pushResolve]
  · intro r fl f
    simp [pushCmd, pushResolve]
  · intro r b fl
    rfl

/-- Claim C2: the executor resolves with stdout trimmed of surrounding
whitespace when the subprocess reports no error, and rejects otherwise with a
message embedding the invocation string and the stderr text; and every facade
operation routes its subprocess call through runCommand. -/
theorem runCommand_executor_contract :
    ∀ (env : Env) (g : Git) (cmd : String),
      ((env g.cwd cmd).err = false →
        runCommand env g cmd = Except.ok (jsTrim (env g.cwd cmd).stdout))
      ∧ ((env g.cwd cmd).err = true →
        runCommand env g cmd =
          Except.error ("Error executing command: " ++ cmd ++ "\n" ++
            (env g.cwd cmd).stderr)
        ∧ strIncludes ("Error executing command: " ++ cmd ++ "\n" ++
            (env g.cwd cmd).stderr) cmd = true
        ∧ strIncludes ("Error executing command: " ++ cmd ++ "\n" ++
            (env g.cwd cmd).stderr) ((env g.cwd cmd).stderr) = true)
      ∧ getUserName env g = runCommand env g "git config user.name"
      ∧ (∀ name, setUserName env g name =
          runCommand env g (setUserNameCmd name))
      ∧ getUserEmail env g = runCommand env g "git config user.email"
      ∧ (∀ email, setUserEmail env g email =
          runCommand env g (setUserEmailCmd email))
      ∧ hasNoUnstagedChanges env g =
          tryCommand (runCommand env g "git diff --quiet")
      ∧ hasNoStagedChanges env g =
          tryCommand (runCommand env g "git diff --cached --quiet")
      ∧ hasUpstreamBranch env g =
          tryCommand (runCommand env g
            "git rev-parse --abbrev-ref --symbolic-full-name @\x7bu\x7d")
      ∧ getCurrentBranchName env g =
          runCommand env g "git rev-parse --abbrev-ref HEAD"
      ∧ getDefaultBranchName env g =
          (runCommand env g "git branch -r").map getDefaultBranchNameOf
      ∧ (∀ p, add env g p = runCommand env g (addCmd p))
      ∧ (∀ h fl, reset env g h fl = runCommand env g (resetCmd h fl))
      ∧ (∀ t fl, restore env g t fl = runCommand env g (restoreCmd t fl))
      ∧ (∀ m f, commit env g m f =
          (runCommand env g (commitCmd m f)).map (fun _ => g))
      ∧ init env g = (runCommand env g "git init").map (fun _ => g)
      ∧ (∀ u d, clone env g u d =
          (runCommand env g (cloneCmd u d)).map (fun _ => g))
      ∧ (∀ r b f, push env g r b f =
          (runCommand env g (pushCmd r b f)).map (fun _ => g))
      ∧ (∀ v f, tag env g v f = runCommand env g (tagCmd v f))
      ∧ (∀ bn f, merge env g bn f = runCommand env g (mergeCmd bn f))
      ∧ (∀ t f, checkout env g t f =
          (runCommand env g (checkoutCmd t f)).map (fun _ => g))
      ∧ (∀ n f, branch env g n f = runCommand env g (branchCmd n f)) := by
  intro env g cmd
  refine ⟨?_, ?_, rfl, fun _ => rfl, rfl, fun _ => rfl, rfl, rfl, rfl, rfl,
    rfl, fun _ => rfl, fun _ _ => rfl, fun _ _ => rfl, fun _ _ => rfl, rfl,
    fun _ _ => rfl, fun _ _ _ => rfl, fun _ _ => rfl, fun _ _ => rfl,
    fun _ _ => rfl, fun _ _ => rfl⟩
  · intro h
    simp [runCommand, h]
  · intro h
    refine ⟨by simp [runCommand, h], ?_, ?_⟩
    · unfold strIncludes
      simp only [data_append, List.append_assoc]
      exact hasSub_of_parts cmd.data _ _
    · unfold strIncludes
      simp only [data_append]
      exact hasSub_tail (env g.cwd cmd).stderr.data _

/-- Witness for claim C2 at a concrete succeeding world and a concrete
failing world. -/
theorem runCommand_executor_contract_witness :
    runCommand envOk { cwd := "/repo" } "git status" =
      Except.ok (jsTrim (envOk "/repo" "git status").stdout)
    ∧ (runCommand envFail { cwd := "/repo" } "git status" =
        Except.error ("Error executing command: " ++ "git status" ++ "\n" ++
          (envFail "/repo" "git status").stderr)
      ∧ strIncludes ("Error executing command: " ++ "git status" ++ "\n" ++
          (envFail "/repo" "git status").stderr) "git status" = true
      ∧ strIncludes ("Error executing command: " ++ "git status" ++ "\n" ++
          (envFail "/repo" "git status").stderr)
          ((envFail "/repo" "git status").stderr) = true) :=
  ⟨(runCommand_executor_contract envOk { cwd := "/repo" } "git status").1 rfl,
   (runCommand_executor_contract envFail { cwd := "/repo" }
      "git status").2.1 rfl⟩

/-- Claim C3: commit wraps the message in double quotes after replacing each
embedded double quote by backslash-double-quote — character-wise, every
double quote of the message expands to the two-character escaped form and
every other character passes through; the quoted example holds. -/
theorem commit_message_escaping :
    (∀ (m : String) (flags : FlagsArg),
      commitCmd m flags =
        "git commit -m \"" ++ escapeQuotes m ++ "\"" ++ commitFlagsPart flags)
    ∧ (∀ m : String, escapeQuotes m = specEscapedMessage m)
    ∧ commitCmd "say \"hi\"" FlagsArg.undef =
        "git commit -m \"say \\\"hi\\\"\"" := by
  refine ⟨fun m flags => rfl,
    fun m => congrArg String.mk (escQ_eq_spec m.data), by decide⟩

/-- Counterexample to claim C4 as stated: on a listing in which the
origin/HEAD line is not the first line (hence keeps its indentation), the
code removes the occurrence of "origin/HEAD -> origin/" in the middle of the
line and returns "dev", while the claimed prefix removal leaves the line
unchanged and would return "origin/HEAD -> origin/dev". -/
theorem default_branch_prefix_counterexample :
    getDefaultBranchName envListing { cwd := "/repo" } = Except.ok "dev"
    ∧ getDefaultBranchNameOf listingCE = "dev"
    ∧ claimedDefaultBranchOf listingCE = "origin/HEAD -> origin/dev"
    ∧ ("dev" : String) ≠ "origin/HEAD -> origin/dev" := by
  refine ⟨rfl, by decide, by decide, by decide⟩

/-- Claim C4 (amended): getDefaultBranchName returns the first line
containing "origin/HEAD" with the first occurrence of
"origin/HEAD -> origin/" removed — wherever it occurs in the line, not only
as a leading prefix — and surrounding whitespace trimmed; "main" when no line
contains the marker; and a failure of the listing command propagates. -/
theorem default_branch_amended :
    ∀ (env : Env) (g : Git) (branches : String),
      getDefaultBranchNameOf branches = amendedDefaultBranchOf branches
      ∧ ((splitLines branches).find?
            (fun b => strIncludes b "origin/HEAD") = none →
          getDefaultBranchNameOf branches = "main")
      ∧ (∀ s, runCommand env g "git branch -r" = Except.ok s →
          getDefaultBranchName env g =
            Except.ok (amendedDefaultBranchOf s))
      ∧ (∀ e, runCommand env g "git branch -r" = Except.error e →
          getDefaultBranchName env g = Except.error e) := by
  intro env g branches
  refine ⟨getDefaultBranchNameOf_eq_amended branches, ?_, ?_, ?_⟩
  · intro h
    unfold getDefaultBranchNameOf
    rw [h]
  · intro s hs
    unfold getDefaultBranchName
    rw [hs]
    exact congrArg Except.ok (getDefaultBranchNameOf_eq_amended s)
  · intro e he
    unfold getDefaultBranchName
    rw [he]
    rfl

/-- Witness for claim C4 (amended) at concrete listings and worlds. -/
theorem default_branch_amended_witness :
    getDefaultBranchNameOf "  origin/dev" = "main"
    ∧ getDefaultBranchName envListing { cwd := "/repo" } =
        Except.ok (amendedDefaultBranchOf listingCE)
    ∧ getDefaultBranchName envFail { cwd := "/repo" } =
        Except.error ("Error executing command: " ++ "git branch -r" ++
          "\n" ++ "fatal: boom") :=
  ⟨(default_branch_amended envOk { cwd := "/repo" } "  origin/dev").2.1
      (by decide),
   (default_branch_amended envListing { cwd := "/repo" } "").2.2.1
      listingCE rfl,
   (default_branch_amended envFail { cwd := "/repo" } "").2.2.2
      ("Error executing command: " ++ "git branch -r" ++ "\n" ++ "fatal: boom")
      rfl⟩

/-- Claim C5: each boolean probe is true exactly when its wrapped command
resolves (payload discarded) and false on any failure, whatever the failure
text. -/
theorem probe_failsoft_contract :
    ∀ (env : Env) (g : Git),
      (∀ s, runCommand env g "git diff --quiet" = Except.ok s →
        hasNoUnstagedChanges env g = true)
      ∧ (∀ e, runCommand env g "git diff --quiet" = Except.error e →
        hasNoUnstagedChanges env g = false)
      ∧ (∀ s, runCommand env g "git diff --cached --quiet" = Except.ok s →
        hasNoStagedChanges env g = true)
      ∧ (∀ e, runCommand env g "git diff --cached --quiet" = Except.error e →
        hasNoStagedChanges env g = false)
      ∧ (∀ s, runCommand env g
            "git rev-parse --abbrev-ref --symbolic-full-name @\x7bu\x7d" =
            Except.ok s →
        hasUpstreamBranch env g = true)
      ∧ (∀ e, runCommand env g
            "git rev-parse --abbrev-ref --symbolic-full-name @\x7bu\x7d" =
            Except.error e →
        hasUpstreamBranch env g = false) := by
  intro env g
  refine ⟨?_, ?_, ?_, ?_, ?_, ?_⟩ <;> intro x h <;>
    simp [hasNoUnstagedChanges, hasNoStagedChanges, hasUpstreamBranch,
      tryCommand, h]

/-- Witness for claim C5: each probe evaluated in an all-succeeding and an
all-failing world. -/
theorem probe_failsoft_contract_witness :
    hasNoUnstagedChanges envOk { cwd := "/repo" } = true
    ∧ hasNoStagedChanges envOk { cwd := "/repo" } = true
    ∧ hasUpstreamBranch envOk { cwd := "/repo" } = true
    ∧ hasNoUnstagedChanges envFail { cwd := "/repo" } = false
    ∧ hasNoStagedChanges envFail { cwd := "/repo" } = false
    ∧ hasUpstreamBranch envFail { cwd := "/repo" } = false :=
  ⟨(probe_failsoft_contract envOk { cwd := "/repo" }).1 "out" rfl,
   (probe_failsoft_contract envOk { cwd := "/repo" }).2.2.1 "out" rfl,
   (probe_failsoft_contract envOk { cwd := "/repo" }).2.2.2.2.1 "out" rfl,
   (probe_failsoft_contract envFail { cwd := "/repo" }).2.1
     ("Error executing command: " ++ "git diff --quiet" ++ "\n" ++
       "fatal: boom") rfl,
   (probe_failsoft_contract envFail { cwd := "/repo" }).2.2.2.1
     ("Error executing command: " ++ "git diff --cached --quiet" ++ "\n" ++
       "fatal: boom") rfl,
   (probe_failsoft_contract envFail { cwd := "/repo" }).2.2.2.2.2
     ("Error executing command: " ++
       "git rev-parse --abbrev-ref --symbolic-full-name @\x7bu\x7d" ++
       "\n" ++ "fatal: boom") rfl⟩

/-- Claim C6: for every flag-accepting operation, a single flag from the
operation's closed flag set builds the same invocation as the one-element
list of that flag, and a flag list is joined space-separated in the given
order. -/
theorem flag_single_eq_singleton_list :
    (∀ f, f ∈ commitFlags → ∀ m,
      commitCmd m (FlagsArg.one f) = commitCmd m (FlagsArg.many [f]))
    ∧ (∀ f, f ∈ tagFlags → ∀ v,
      tagCmd v (FlagsArg.one f) = tagCmd v (FlagsArg.many [f]))
    ∧ (∀ f, f ∈ mergeFlags → ∀ b,
      mergeCmd b (FlagsArg.one f) = mergeCmd b (FlagsArg.many [f]))
    ∧ (∀ f, f ∈ checkoutFlags → ∀ t,
      checkoutCmd t (FlagsArg.one f) = checkoutCmd t (FlagsArg.many [f]))
    ∧ (∀ f, f ∈ branchFlags → ∀ n,
      branchCmd n (FlagsArg.one f) = branchCmd n (FlagsArg.many [f]))
    ∧ (∀ f, f ∈ pushFlags → ∀ r b,
      pushCmd (StrOrList.str r) (StrOrList.str b) (FlagsArg.one f) =
        pushCmd (StrOrList.str r) (StrOrList.str b) (FlagsArg.many [f]))
    ∧ (∀ l, flagStrOf (FlagsArg.many l) = String.intercalate " " l ++ " ")
    ∧ (∀ l, commitFlagsPart (FlagsArg.many l) =
        " " ++ String.intercalate " " l) := by
  refine ⟨?_, ?_, ?_, ?_, ?_, ?_, fun l => rfl, fun l => rfl⟩
  · intro f hf m
    have hne := ne_empty_of_mem (by decide) hf
    simp [commitCmd, commitFlagsPart, hne, intercalate_singleton]
  · intro f hf v
    have hne := ne_empty_of_mem (by decide) hf
    simp [tagCmd, flagStrOf, hne, intercalate_singleton]
  · intro f hf b
    have hne := ne_empty_of_mem (by decide) hf
    simp [mergeCmd, flagStrOf, hne, intercalate_singleton]
  · intro f hf t
    have hne := ne_empty_of_mem (by decide) hf
    simp [checkoutCmd, flagStrOf, hne, intercalate_singleton]
  · intro f hf n
    have hne := ne_empty_of_mem (by decide) hf
    simp [branchCmd, hne]
  · intro f hf r b
    have hne := ne_empty_of_mem (by decide) hf
    simp [pushCmd, pushResolve, hne]

/-- Witness for claim C6: one concrete flag per operation. -/
theorem flag_single_eq_singleton_list_witness :
    commitCmd "m" (FlagsArg.one "--amend") =
      commitCmd "m" (FlagsArg.many ["--amend"])
    ∧ tagCmd "v1" (FlagsArg.one "--force") =
        tagCmd "v1" (FlagsArg.many ["--force"])
    ∧ mergeCmd "dev" (FlagsArg.one "--no-ff") =
        mergeCmd "dev" (FlagsArg.many ["--no-ff"])
    ∧ checkoutCmd "main" (FlagsArg.one "-b") =
        checkoutCmd "main" (FlagsArg.many ["-b"])
    ∧ branchCmd (some "x") (FlagsArg.one "-d") =
        branchCmd (some "x") (FlagsArg.many ["-d"])
    ∧ pushCmd (StrOrList.str "origin") (StrOrList.str "dev")
        (FlagsArg.one "--tags") =
      pushCmd (StrOrList.str "origin") (StrOrList.str "dev")
        (FlagsArg.many ["--tags"]) :=
  ⟨flag_single_eq_singleton_list.1 "--amend" (by decide) "m",
   flag_single_eq_singleton_list.2.1 "--force" (by decide) "v1",
   flag_single_eq_singleton_list.2.2.1 "--no-ff" (by decide) "dev",
   flag_single_eq_singleton_list.2.2.2.1 "-b" (by decide) "main",
   flag_single_eq_singleton_list.2.2.2.2.1 "-d" (by decide) (some "x"),
   flag_single_eq_singleton_list.2.2.2.2.2.1 "--tags" (by decide)
     "origin" "dev"⟩

/-- Claim C7: add with no argument builds the same invocation as add of ".",
and a path list is space-joined in order with the trailing space. -/
theorem add_default_and_join :
    addCmdDefault = addCmd (StrOrList.str ".")
    ∧ (∀ l : List String,
        addCmd (StrOrList.list l) =
          "git add " ++ String.intercalate " " l ++ " ")
    ∧ addCmd (StrOrList.list ["a", "b"]) = "git add a b " := by
  refine ⟨rfl, fun l => rfl, by decide⟩

/-- Claim C8: isWorkingDirClean is the conjunction of the two probes — true
iff both are true, and false whenever either is false, including when the
first succeeds and the second fails. -/
theorem working_dir_clean_conjunction :
    ∀ (env : Env) (g : Git),
      isWorkingDirClean env g =
        (hasNoUnstagedChanges env g && hasNoStagedChanges env g)
      ∧ (isWorkingDirClean env g = true ↔
          (hasNoUnstagedChanges env g = true ∧
            hasNoStagedChanges env g = true))
      ∧ (hasNoUnstagedChanges env g = true →
          hasNoStagedChanges env g = false →
          isWorkingDirClean env g = false) := by
  intro env g
  refine ⟨rfl, by simp [isWorkingDirClean], ?_⟩
  intro h1 h2
  simp [isWorkingDirClean, h1, h2]

/-- Witness for claim C8: a world in which the unstaged probe succeeds and
the staged probe fails, so the composite is false. -/
theorem working_dir_clean_conjunction_witness :
    isWorkingDirClean envFirstOnly { cwd := "/repo" } = false :=
  (working_dir_clean_conjunction envFirstOnly { cwd := "/repo" }).2.2
    (by decide) (by decide)

/-- Claim C9: init, clone, checkout and commit return the facade instance
itself on success and propagate the underlying failure. -/
theorem chaining_ops_return_self :
    ∀ (env : Env) (g : Git) (url dir target message : String)
      (flags : FlagsArg),
      (∀ s, runCommand env g "git init" = Except.ok s →
        init env g = Except.ok g)
      ∧ (∀ e, runCommand env g "git init" = Except.error e →
          init env g = Except.error e)
      ∧ (∀ s, runCommand env g (cloneCmd url dir) = Except.ok s →
          clone env g url dir = Except.ok g)
      ∧ (∀ e, runCommand env g (cloneCmd url dir) = Except.error e →
          clone env g url dir = Except.error e)
      ∧ (∀ s, runCommand env g (checkoutCmd target flags) = Except.ok s →
          checkout env g target flags = Except.ok g)
      ∧ (∀ e, runCommand env g (checkoutCmd target flags) = Except.error e →
          checkout env g target flags = Except.error e)
      ∧ (∀ s, runCommand env g (commitCmd message flags) = Except.ok s →
          commit env g message flags = Except.ok g)
      ∧ (∀ e, runCommand env g (commitCmd message flags) = Except.error e →
          commit env g message flags = Except.error e) := by
  intro env g url dir target message flags
  refine ⟨?_, ?_, ?_, ?_, ?_, ?_, ?_, ?_⟩ <;> intro x h <;>
    simp [init, clone, checkout, commit, h, Except.map]

/-- Witness for claim C9 at concrete worlds: success returns the instance,
failure returns the underlying error. -/
theorem chaining_ops_return_self_witness :
    init envOk { cwd := "/repo" } = Except.ok { cwd := "/repo" }
    ∧ init envFail { cwd := "/repo" } =
        Except.error ("Error executing command: " ++ "git init" ++ "\n" ++
          "fatal: boom")
    ∧ commit envOk { cwd := "/repo" } "msg" FlagsArg.undef =
        Except.ok { cwd := "/repo" } :=
  ⟨(chaining_ops_return_self envOk { cwd := "/repo" } "" "" "" ""
      FlagsArg.undef).1 "out" rfl,
   (chaining_ops_return_self envFail { cwd := "/repo" } "" "" "" ""
      FlagsArg.undef).2.1
      ("Error executing command: " ++ "git init" ++ "\n" ++ "fatal: boom")
      rfl,
   (chaining_ops_return_self envOk { cwd := "/repo" } "" "" "" "msg"
      FlagsArg.undef).2.2.2.2.2.2.1 "out" rfl⟩

/-- Claim C10: setUserName and setUserEmail build exactly the quoted config
invocations (trailing space for the name form, none for the email form),
inserting the value verbatim with no escaping of embedded double quotes,
unlike commit messages. -/
theorem set_user_verbatim_quoting :
    (∀ name : String,
      setUserNameCmd name =
        "git config --global user.name \"" ++ name ++ "\" ")
    ∧ (∀ email : String,
      setUserEmailCmd email =
        "git config --global user.email \"" ++ email ++ "\"")
    ∧ (∀ (env : Env) (g : Git) (name : String),
        setUserName env g name = runCommand env g (setUserNameCmd name))
    ∧ (∀ (env : Env) (g : Git) (email : String),
        setUserEmail env g email = runCommand env g (setUserEmailCmd email))
    ∧ setUserNameCmd "a\"b" = "git config --global user.name \"a\"b\" "
    ∧ setUserEmailCmd "a\"b" = "git config --global user.email \"a\"b\""
    ∧ setUserNameCmd "a\"b" ≠
        "git config --global user.name \"" ++ escapeQuotes "a\"b" ++ "\" " := by
  refine ⟨fun _ => rfl, fun _ => rfl, fun _ _ _ => rfl, fun _ _ _ => rfl,
    by decide, by decide, by decide⟩

end GitNifty
